import Mathlib

/-!
# DoNPCL: correspondence comparison and the DoN scale pyramid

A shallow embedding of the two example programs of the repository:

* `examples/compare_gt_clusters.cpp`: for a ground-truth cloud and each candidate
  cloud, a radius search with result limit 1 per candidate point, the set
  intersection and union counts, and the report line;
* `examples/example_pcl_don_pyramid.cpp`: the nested scale loops, the per-point fold
  of DoN magnitudes into a map from scale pairs to statistics accumulators.

Coordinates, scales and samples are rationals (exact arithmetic); an undefined (NaN)
sample is `none`.  The 32-bit `unsigned int` counters of the comparison are naturals
reduced modulo `2 ^ 32`.  Loops that may run forever carry a fuel argument and
report `Status.timeout` when it runs out.
-/

namespace DoNPCL

/-! ## compare_gt_clusters.cpp -/

/-- The point type `pcl::PointXYZ` (typedef `PointT`), coordinates in exact arithmetic. -/
structure PointT where
  x : ℚ
  y : ℚ
  z : ℚ
deriving DecidableEq

/-- Number of values of a 32-bit `unsigned int`. -/
abbrev UINT_MOD : Nat := 4294967296

/-- Number of values of a 64-bit `size_t`. -/
abbrev SIZE_MOD : Nat := 18446744073709551616

/-- A loaded cloud `pcl::PointCloud<PointT>`.  Both programs obtain every cloud from
`pcl::fromROSMsg`, which sizes `points` to `width * height` computed in `uint32_t`, so
the number of points is below `2 ^ 32`. -/
structure PointCloud where
  points : List PointT
  size_lt : points.length < UINT_MOD

/-- The member `size ()` of a cloud. -/
def PointCloud.size (c : PointCloud) : Nat := c.points.length

/-- Squared Euclidean distance between two points. -/
def sqrDist (p q : PointT) : ℚ :=
  (p.x - q.x) * (p.x - q.x) + (p.y - q.y) * (p.y - q.y) + (p.z - q.z) * (p.z - q.z)

/-- The Euclidean distance between `p` and `q` is at most `r`, stated without square
roots: `r` is non-negative and the squared distance is at most `r * r`. -/
def withinRadius (p q : PointT) (r : ℚ) : Prop :=
  0 ≤ r ∧ sqrDist p q ≤ r * r

instance (p q : PointT) (r : ℚ) : Decidable (withinRadius p q r) := by
  unfold withinRadius; infer_instance

/-- The search method behind `SearchPtr tree` after `tree->setInputCloud (gt)`:
`radiusSearch cloud query radius max_nn` gives the indices found for one query point.
The two variants (`OrganizedNeighbor`, `KdTree`) live in the PCL library, so the
search is a parameter of the embedding. -/
abbrev Search := List PointT → PointT → ℚ → Nat → List Nat

/-- Modelled from the spec: the radius search of section 4.1, which is a PCL library
routine absent from the sources: all points of the cloud within the radius, in index
order, cut to `max_nn` results when `max_nn` is not zero. -/
def exactRadiusSearch : Search := fun cloud query radius max_nn =>
  let found := (List.range cloud.length).filter
    (fun i => match cloud[i]? with
      | some p => decide (withinRadius p query radius)
      | none => false)
  if max_nn = 0 then found else found.take max_nn

/-- The contract assumed of a search with result limit 1: the answer is non-empty
exactly when some point of the indexed cloud lies within the radius of the query. -/
def RadiusExact (search : Search) : Prop :=
  ∀ (cloud : List PointT) (query : PointT) (radius : ℚ),
    search cloud query radius 1 ≠ [] ↔ ∃ p ∈ cloud, withinRadius p query radius

/-- The call `tree->radiusSearch (*candidate, vector<int>(), EPSILON, k_indices,
k_sqr_distances, 1)` (line 109): with an empty index list, one search per point of the
candidate cloud in order, each limited to one result. -/
def k_indices (search : Search) (gt candidate : PointCloud) (eps : ℚ) : List (List Nat) :=
  candidate.points.map (fun q => search gt.points q eps 1)

/-- The loop of lines 111-120: the first index of every non-empty search result is
pushed onto `intersection`, in candidate order. -/
def intersection (search : Search) (gt candidate : PointCloud) (eps : ℚ) : List Nat :=
  (k_indices search gt candidate eps).filterMap List.head?

/-- The value `unsigned int setintersection = intersection.size ()` (line 122). -/
def setintersection (search : Search) (gt candidate : PointCloud) (eps : ℚ) : Nat :=
  (intersection search gt candidate eps).length % UINT_MOD

/-- The value `unsigned int setunion = gt->size() + candidate->size() - setintersection`
(line 123): the sum and difference are taken in `size_t`, the result is narrowed to
`unsigned int`. -/
def setunion (search : Search) (gt candidate : PointCloud) (eps : ℚ) : Nat :=
  ((gt.size + candidate.size + (SIZE_MOD - setintersection search gt candidate eps))
    % SIZE_MOD) % UINT_MOD

/-- The tolerance `const double EPSILON = 0.0001` (line 107). -/
def EPSILON : ℚ := 1 / 10000

/-- One line written to standard output (line 125): the ground-truth path, the candidate
path, `intersection.size ()` and `setunion`. -/
structure ReportLine where
  infile : String
  cfile : String
  intersectionCount : Nat
  unionCount : Nat
deriving DecidableEq

/-- Lines 124-126 for one candidate: the line is written only when `setintersection`
is not zero. -/
def reportCandidate (search : Search) (infile : String) (gt : PointCloud) (eps : ℚ)
    (cfile : String) (candidate : PointCloud) : Option ReportLine :=
  if setintersection search gt candidate eps ≠ 0 then
    some ⟨infile, cfile, (intersection search gt candidate eps).length,
      setunion search gt candidate eps⟩
  else none

/-- The candidate loop of `main` (lines 98-127) over the loaded candidate clouds, with
the tolerance as a parameter: the lines written, in order. -/
def compareCandidates (search : Search) (infile : String) (gt : PointCloud) (eps : ℚ)
    (candidates : List (String × PointCloud)) : List ReportLine :=
  candidates.filterMap (fun c => reportCandidate search infile gt eps c.1 c.2)

/-- The output of `main` of `compare_gt_clusters.cpp`: the candidate loop at the fixed
tolerance `EPSILON`. -/
def compare_gt_clusters (search : Search) (infile : String) (gt : PointCloud)
    (candidates : List (String × PointCloud)) : List ReportLine :=
  compareCandidates search infile gt EPSILON candidates

/-- The number of candidate points, counted by position, that have at least one point
of the reference cloud within distance `eps`. -/
def matchedCount (gt candidate : PointCloud) (eps : ℚ) : Nat :=
  candidate.points.countP (fun q => decide (∃ p ∈ gt.points, withinRadius p q eps))

/-! ## example_pcl_don_pyramid.cpp -/

/-- A sample handed to an accumulator: a magnitude, or `none` when it is undefined
(a NaN of the floating-point program). -/
abbrev Sample := Option ℚ

/-- Addition of samples; an undefined operand makes the result undefined. -/
def Sample.add : Sample → Sample → Sample
  | some u, some v => some (u + v)
  | _, _ => none

/-- Subtraction of samples; an undefined operand makes the result undefined. -/
def Sample.sub : Sample → Sample → Sample
  | some u, some v => some (u - v)
  | _, _ => none

/-- Square of a sample. -/
def Sample.sq : Sample → Sample
  | some v => some (v * v)
  | none => none

/-- Division of a sample by a count; dividing by a zero count is undefined. -/
def Sample.divCount (s : Sample) (n : Nat) : Sample :=
  if n = 0 then none else s.map (fun v => v / (n : ℚ))

/-- The largest finite `double`, the start value of the running minimum. -/
def DBL_MAX : ℚ := 2 ^ 1024 - 2 ^ 971

/-- The state of `accumulator_t` (line 54), a boost accumulator set over `double`
with the features count, sum, min, max, mean, lazy variance and a P-square median.
Mean and lazy variance are read off the count, the sum and the sum of squares
(`moment<2>`).  The state of the P-square median estimator is left out. -/
structure accumulator_t where
  count : Nat
  sum : Sample
  min : ℚ
  max : ℚ
  sumsq : Sample
deriving DecidableEq

/-- The accumulator made by `new accumulator_t(0)` (line 236). -/
def accumulator_t.init : accumulator_t :=
  { count := 0, sum := some 0, min := DBL_MAX, max := -DBL_MAX, sumsq := some 0 }

/-- The call `acc (mag)`: one sample pushed into an accumulator.  The count always
grows; sum and sum of squares add the sample; min and max replace their value only
when the comparison with the sample succeeds, which it never does for an undefined
sample. -/
def accumulator_t.push (acc : accumulator_t) (x : Sample) : accumulator_t :=
  { count := acc.count + 1
    sum := Sample.add acc.sum x
    min := match x with
      | some v => if v < acc.min then v else acc.min
      | none => acc.min
    max := match x with
      | some v => if v > acc.max then v else acc.max
      | none => acc.max
    sumsq := Sample.add acc.sumsq (Sample.sq x) }

/-- The extractor `mean`: sum divided by count. -/
def accumulator_t.mean (acc : accumulator_t) : Sample :=
  Sample.divCount acc.sum acc.count

/-- The extractor `variance` of `tag::variance(lazy)`: the second moment minus the
square of the mean. -/
def accumulator_t.variance (acc : accumulator_t) : Sample :=
  Sample.sub (Sample.divCount acc.sumsq acc.count) (Sample.sq acc.mean)

/-- The key `pair<float, float>` of the statistics map: `(scale1, scale2)`. -/
abbrev ScaleKey := ℚ × ℚ

/-- The order `operator<` of `std::pair`. -/
def keyLt (a b : ScaleKey) : Bool :=
  decide (a.1 < b.1) || (decide (a.1 = b.1) && decide (a.2 < b.2))

/-- The map `stats` (line 106) from scale keys to accumulators, as the list of its
entries in iteration order. -/
abbrev StatsMap := List (ScaleKey × accumulator_t)

/-- The lookup `stats.find (scalekey)`. -/
def StatsMap.find : StatsMap → ScaleKey → Option accumulator_t
  | [], _ => none
  | (k', a) :: rest, k => if k = k' then some a else StatsMap.find rest k

/-- The call `stats.insert (make_pair (scalekey, acc))`: a map that has the key is left
as it is, otherwise the entry goes to its place in key order. -/
def StatsMap.insert : StatsMap → ScaleKey → accumulator_t → StatsMap
  | [], k, a => [(k, a)]
  | (k', a') :: rest, k, a =>
    if k = k' then (k', a') :: rest
    else if keyLt k k' then (k, a) :: (k', a') :: rest
    else (k', a') :: StatsMap.insert rest k a

/-- The accumulator at `stats.at (scalekey)` receives a sample through its shared
pointer: `(*(stats.at (scalekey))) (mag)`. -/
def StatsMap.pushAt : StatsMap → ScaleKey → Sample → StatsMap
  | [], _, _ => []
  | (k', a) :: rest, k, x =>
    if k = k' then (k', a.push x) :: rest else (k', a) :: StatsMap.pushAt rest k x

/-- Lines 232-238: one magnitude folded into the statistics of a key; the accumulator
is created when the key is not in the map yet. -/
def foldSample (stats : StatsMap) (scalekey : ScaleKey) (mag : Sample) : StatsMap :=
  if (StatsMap.find stats scalekey).isSome then
    StatsMap.pushAt stats scalekey mag
  else
    StatsMap.pushAt (StatsMap.insert stats scalekey accumulator_t.init) scalekey mag

/-- The library work of one scale pair (lines 142-219): downsampling, the normals at
both scales and the DoN operator.  `initCompute cloud scale1 scale2` tells whether the
DoN operator could be initialised; `magnitude cloud scale1 scale2 point_id` is the
norm `mag` of the DoN vector of a point, `none` when it is undefined. -/
structure DoNOps where
  initCompute : PointCloud → ℚ → ℚ → Bool
  magnitude : PointCloud → ℚ → ℚ → Nat → Sample

/-- The two ways the pyramid calls `exit (EXIT_FAILURE)`: the scale check of line 177
and the failed initialisation of line 213. -/
inductive Fatal where
  | scaleOrder
  | donInit
deriving DecidableEq

/-- How a loop ended: it ran to its end, it ran out of fuel, or the program exited. -/
inductive Status where
  | done
  | timeout
  | fatal (e : Fatal)
deriving DecidableEq

/-- The values `mag` of the point loop (lines 227-231), by `point_id`: the DoN cloud is
a copy of `cloud`, so there is one for every point of `cloud`. -/
def magnitudes (ops : DoNOps) (cloud : PointCloud) (scale1 scale2 : ℚ) : List Sample :=
  (List.range cloud.size).map (ops.magnitude cloud scale1 scale2)

/-- A list of samples folded into the statistics of one key, one after the other. -/
def foldSamples (stats : StatsMap) (scalekey : ScaleKey) (mags : List Sample) : StatsMap :=
  mags.foldl (fun st mag => foldSample st scalekey mag) stats

/-- The point loop of lines 227-239: the magnitude of every point of the DoN cloud is
folded into the statistics of the key `(scale1, scale2)`. -/
def foldCloud (ops : DoNOps) (cloud : PointCloud) (scale1 scale2 : ℚ) (stats : StatsMap) :
    StatsMap :=
  foldSamples stats (scale1, scale2) (magnitudes ops cloud scale1 scale2)

/-- The number of points of a cloud whose DoN magnitude at a scale pair is defined. -/
def definedCount (ops : DoNOps) (cloud : PointCloud) (scale1 scale2 : ℚ) : Nat :=
  (magnitudes ops cloud scale1 scale2).countP (fun mag => mag.isSome)

/-- The count held for a key, 0 when the map has no accumulator for it. -/
def StatsMap.countAt (stats : StatsMap) (scalekey : ScaleKey) : Nat :=
  match StatsMap.find stats scalekey with
  | some acc => acc.count
  | none => 0

/-- The body of the inner scale loop (lines 142-240) for one cloud. -/
def pairBody (ops : DoNOps) (cloud : PointCloud) (stats : StatsMap) (scale1 scale2 : ℚ) :
    Except Fatal StatsMap :=
  if scale1 ≥ scale2 then Except.error Fatal.scaleOrder
  else if ops.initCompute cloud scale1 scale2 = false then Except.error Fatal.donInit
  else Except.ok (foldCloud ops cloud scale1 scale2 stats)

/-- The inner loop `for (scale1 = ...; scale1 < scale2; scale1 += radiusincrement)`
(line 141) from the current `scale1`, over any loop body. -/
def innerLoop {σ : Type} (body : σ → ℚ → ℚ → Except Fatal σ) (radiusincrement scale2 : ℚ) :
    Nat → ℚ → σ → Status × σ
  | 0, _, st => (Status.timeout, st)
  | fuel + 1, scale1, st =>
    if scale1 < scale2 then
      match body st scale1 scale2 with
      | Except.error e => (Status.fatal e, st)
      | Except.ok st' => innerLoop body radiusincrement scale2 fuel (scale1 + radiusincrement) st'
    else (Status.done, st)

/-- The outer loop `for (scale2 = ...; scale2 < radius2; scale2 += radiusincrement)`
(line 140) from the current `scale2`; every round runs the inner loop from `radius1`. -/
def outerLoop {σ : Type} (body : σ → ℚ → ℚ → Except Fatal σ) (radius1 radius2 radiusincrement : ℚ) :
    Nat → ℚ → σ → Status × σ
  | 0, _, st => (Status.timeout, st)
  | fuel + 1, scale2, st =>
    if scale2 < radius2 then
      match innerLoop body radiusincrement scale2 fuel radius1 st with
      | (Status.done, st') =>
        outerLoop body radius1 radius2 radiusincrement fuel (scale2 + radiusincrement) st'
      | r => r
    else (Status.done, st)

/-- The scale loops of one cloud (lines 140-241), entered at
`scale2 = radius1 + radiusincrement`. -/
def scaleLoops {σ : Type} (body : σ → ℚ → ℚ → Except Fatal σ) (radius1 radius2 radiusincrement : ℚ)
    (fuel : Nat) (st : σ) : Status × σ :=
  outerLoop body radius1 radius2 radiusincrement fuel (radius1 + radiusincrement) st

/-- A loop body that only writes down the pair it is run for. -/
def recordPair (trace : List ScaleKey) (scale1 scale2 : ℚ) : Except Fatal (List ScaleKey) :=
  Except.ok (trace ++ [(scale1, scale2)])

/-- The scale pairs the loops of one cloud run their body for, in order. -/
def processedPairs (radius1 radius2 radiusincrement : ℚ) (fuel : Nat) : Status × List ScaleKey :=
  scaleLoops recordPair radius1 radius2 radiusincrement fuel []

/-- The model loop of `main` (lines 108-242) over the loaded clouds. -/
def modelLoop (ops : DoNOps) (radius1 radius2 radiusincrement : ℚ) (fuel : Nat) :
    List PointCloud → StatsMap → Status × StatsMap
  | [], stats => (Status.done, stats)
  | cloud :: rest, stats =>
    match scaleLoops (pairBody ops cloud) radius1 radius2 radiusincrement fuel stats with
    | (Status.done, stats') => modelLoop ops radius1 radius2 radiusincrement fuel rest stats'
    | r => r

/-- One row of the report: `r_s, r_l, min, max, count, sum, mean, variance` (the
median column is left out with the median estimator). -/
structure StatsRow where
  r_s : ℚ
  r_l : ℚ
  min : ℚ
  max : ℚ
  count : Nat
  sum : Sample
  mean : Sample
  variance : Sample
deriving DecidableEq

/-- The report loop of lines 246-266: for every key its statistics row, followed by
the row of the mirrored key with zeros. -/
def report (stats : StatsMap) : List StatsRow :=
  stats.flatMap (fun e =>
    [ { r_s := e.1.1, r_l := e.1.2, min := e.2.min, max := e.2.max, count := e.2.count,
        sum := e.2.sum, mean := e.2.mean, variance := e.2.variance },
      { r_s := e.1.2, r_l := e.1.1, min := 0, max := 0, count := 0,
        sum := some 0, mean := some 0, variance := some 0 } ])

/-- The value of `EXIT_FAILURE`. -/
def EXIT_FAILURE : Nat := 1

/-- What a run of the pyramid program leaves behind: its exit status and the report
rows it wrote. -/
structure RunResult where
  exitStatus : Nat
  rows : List StatsRow
deriving DecidableEq

/-- The program `main` of `example_pcl_don_pyramid.cpp` on loaded clouds: the model
loop from an empty map, then the report and status 0; a fatal exit gives
`EXIT_FAILURE` and no report; `none` when the fuel does not suffice. -/
def example_pcl_don_pyramid (ops : DoNOps) (radius1 radius2 radiusincrement : ℚ)
    (models : List PointCloud) (fuel : Nat) : Option RunResult :=
  match modelLoop ops radius1 radius2 radiusincrement fuel models [] with
  | (Status.done, stats) => some { exitStatus := 0, rows := report stats }
  | (Status.fatal _, _) => some { exitStatus := EXIT_FAILURE, rows := [] }
  | (Status.timeout, _) => none

/-! ## Reference lists for the scale loops -/

/-- A list of scale pairs run through a loop body in order, stopping at the first exit
of the program; `final` is the status when every pair has run. -/
def runPairs {σ : Type} (body : σ → ℚ → ℚ → Except Fatal σ) (final : Status) :
    List ScaleKey → σ → Status × σ
  | [], st => (final, st)
  | p :: ps, st =>
    match body st p.1 p.2 with
    | Except.error e => (Status.fatal e, st)
    | Except.ok st' => runPairs body final ps st'

/-- The grid pairs with large scale `radius1 + j * radiusincrement`: one for every small
scale `radius1 + i * radiusincrement` with `i < j`, in increasing order of `i`. -/
def gridRow (radius1 radiusincrement : ℚ) (j : Nat) : List ScaleKey :=
  (List.range j).map
    (fun (i : Nat) => (radius1 + (i : ℚ) * radiusincrement, radius1 + (j : ℚ) * radiusincrement))

/-- The number of steps `j` from which `radius1 + j * radiusincrement` is no longer
below `radius2`, and at least 1 (the outer loop starts at `j = 1`). -/
def gridBound (radius1 radius2 radiusincrement : ℚ) : Nat :=
  max 1 (Nat.ceil ((radius2 - radius1) / radiusincrement))

/-- The grid pairs in the order of the loops: rows `j = 1, 2, ...` below the bound. -/
def gridPairs (radius1 radius2 radiusincrement : ℚ) : List ScaleKey :=
  (List.range' 1 (gridBound radius1 radius2 radiusincrement - 1)).flatMap
    (gridRow radius1 radiusincrement)

/-! ## Concrete inputs -/

/-- The reference cloud of scenario A: `(0,0,0), (1,0,0), (2,0,0)`. -/
def scenarioA_reference : PointCloud :=
  { points := [⟨0, 0, 0⟩, ⟨1, 0, 0⟩, ⟨2, 0, 0⟩], size_lt := by decide }

/-- The candidate cloud of scenario A: the reference points in another order. -/
def scenarioA_candidate : PointCloud :=
  { points := [⟨2, 0, 0⟩, ⟨0, 0, 0⟩, ⟨1, 0, 0⟩], size_lt := by decide }

/-- The reference cloud of scenario B: two points. -/
def scenarioB_reference : PointCloud :=
  { points := [⟨0, 0, 0⟩, ⟨1, 0, 0⟩], size_lt := by decide }

/-- The candidate cloud of scenario B: two points far from the reference. -/
def scenarioB_candidate : PointCloud :=
  { points := [⟨10, 0, 0⟩, ⟨0, 20, 0⟩], size_lt := by decide }

/-- Library work in which every DoN operator initialises and every magnitude is
undefined, as for points without neighbours. -/
def undefinedOps : DoNOps :=
  { initCompute := fun _ _ _ => true, magnitude := fun _ _ _ _ => none }

/-- Library work in which every DoN operator initialises and the magnitude of point
`point_id` is `point_id / 4`, except that point 1 has none. -/
def sampleOps : DoNOps :=
  { initCompute := fun _ _ _ => true
    magnitude := fun _ _ _ point_id => if point_id = 1 then none else some ((point_id : ℚ) / 4) }

/-- A cloud of one point. -/
def singleCloud : PointCloud :=
  { points := [⟨0, 0, 0⟩], size_lt := by decide }

/-- A cloud of three points on a line. -/
def lineCloud : PointCloud :=
  { points := [⟨0, 0, 0⟩, ⟨1, 0, 0⟩, ⟨2, 0, 0⟩], size_lt := by decide }

/-! ## Facts about the correspondence comparison -/

theorem sqrDist_self (p : PointT) : sqrDist p p = 0 := by
  simp [sqrDist]

theorem withinRadius_self (p : PointT) (r : ℚ) (hr : 0 ≤ r) : withinRadius p p r := by
  refine ⟨hr, ?_⟩
  rw [sqrDist_self]
  exact mul_nonneg hr hr

theorem withinRadius_mono (p q : PointT) (r1 r2 : ℚ) (h : r1 ≤ r2)
    (hw : withinRadius p q r1) : withinRadius p q r2 := by
  obtain ⟨h0, hd⟩ := hw
  exact ⟨le_trans h0 h, le_trans hd (mul_le_mul h h h0 (le_trans h0 h))⟩

theorem exactRadiusSearch_exact : RadiusExact exactRadiusSearch := by
  intro cloud query radius
  simp only [exactRadiusSearch, Nat.one_ne_zero, if_false]
  rw [Ne, List.take_eq_nil_iff]
  simp only [Nat.one_ne_zero, false_or, List.filter_eq_nil_iff, List.mem_range, not_forall]
  constructor
  · rintro ⟨i, hi, hp⟩
    cases hg : cloud[i]? with
    | none => simp [hg] at hp
    | some p =>
      simp only [hg, decide_eq_true_eq, not_not] at hp
      exact ⟨p, List.getElem?_mem hg, hp⟩
  · rintro ⟨p, hp, hw⟩
    obtain ⟨i, hi, hpi⟩ := List.getElem_of_mem hp
    refine ⟨i, hi, ?_⟩
    have hg : cloud[i]? = some p := by
      rw [List.getElem?_eq_getElem hi, hpi]
    simp [hg, hw]

theorem intersection_length (search : Search) (gt candidate : PointCloud) (eps : ℚ) :
    (intersection search gt candidate eps).length =
      candidate.points.countP (fun q => decide (search gt.points q eps 1 ≠ [])) := by
  unfold intersection k_indices
  induction candidate.points with
  | nil => rfl
  | cons q qs ih =>
    cases hs : search gt.points q eps 1 with
    | nil => simpa [List.countP_cons, hs] using ih
    | cons a as => simpa [List.countP_cons, hs] using ih

theorem intersection_length_exact (search : Search) (hs : RadiusExact search)
    (gt candidate : PointCloud) (eps : ℚ) :
    (intersection search gt candidate eps).length = matchedCount gt candidate eps := by
  rw [intersection_length, matchedCount]
  congr 1
  funext q
  simp only [decide_eq_decide]
  exact hs gt.points q eps

theorem matchedCount_le (gt candidate : PointCloud) (eps : ℚ) :
    matchedCount gt candidate eps ≤ candidate.size := by
  unfold matchedCount PointCloud.size
  exact List.countP_le_length _

theorem intersection_length_lt (search : Search) (gt candidate : PointCloud) (eps : ℚ) :
    (intersection search gt candidate eps).length < UINT_MOD := by
  rw [intersection_length]
  exact lt_of_le_of_lt (List.countP_le_length _) candidate.size_lt

theorem setintersection_eq (search : Search) (gt candidate : PointCloud) (eps : ℚ) :
    setintersection search gt candidate eps = (intersection search gt candidate eps).length := by
  unfold setintersection
  exact Nat.mod_eq_of_lt (intersection_length_lt search gt candidate eps)

theorem setintersection_le (search : Search) (gt candidate : PointCloud) (eps : ℚ) :
    setintersection search gt candidate eps ≤ candidate.size := by
  rw [setintersection_eq, intersection_length]
  exact List.countP_le_length _

theorem setunion_eq (search : Search) (gt candidate : PointCloud) (eps : ℚ) :
    setunion search gt candidate eps =
      (gt.size + candidate.size - setintersection search gt candidate eps) % UINT_MOD := by
  have h1 := setintersection_le search gt candidate eps
  have h2 := gt.size_lt
  have h3 := candidate.size_lt
  unfold setunion
  unfold PointCloud.size at *
  simp only [UINT_MOD, SIZE_MOD] at *
  omega

/-! ## Claims about the correspondence comparison -/

/-- C2: for every cloud and every epsilon > 0, under an exact radius search, comparing
the cloud against a candidate that is an exact copy or any reordering of its points
gives intersection = |cloud| and union = |cloud|. -/
theorem compare_reflexive_perm (search : Search) (hs : RadiusExact search)
    (cloud candidate : PointCloud) (eps : ℚ) (heps : 0 < eps)
    (hperm : candidate.points.Perm cloud.points) :
    setintersection search cloud candidate eps = cloud.size ∧
    setunion search cloud candidate eps = cloud.size := by
  have hlen : candidate.size = cloud.size := hperm.length_eq
  have hm : matchedCount cloud candidate eps = candidate.size := by
    unfold matchedCount PointCloud.size
    rw [List.countP_eq_length]
    intro q hq
    simp only [decide_eq_true_eq]
    exact ⟨q, hperm.subset hq, withinRadius_self q eps (le_of_lt heps)⟩
  have hsi : setintersection search cloud candidate eps = cloud.size := by
    rw [setintersection_eq, intersection_length_exact search hs, hm, hlen]
  refine ⟨hsi, ?_⟩
  rw [setunion_eq, hsi, hlen, Nat.add_sub_cancel]
  exact Nat.mod_eq_of_lt cloud.size_lt

/-- Witness of C2, scenario A: the reference `(0,0,0), (1,0,0), (2,0,0)` against the same
three points reordered gives intersection = 3 and union = 3. -/
theorem compare_reflexive_perm_witness :
    setintersection exactRadiusSearch scenarioA_reference scenarioA_candidate EPSILON = 3 ∧
    setunion exactRadiusSearch scenarioA_reference scenarioA_candidate EPSILON = 3 :=
  compare_reflexive_perm exactRadiusSearch exactRadiusSearch_exact scenarioA_reference
    scenarioA_candidate EPSILON (by norm_num [EPSILON]) (by decide)

/-- C3: for every reference cloud, candidate cloud and tolerances epsilon1 <= epsilon2,
under an exact radius search, the intersection count computed with epsilon2 is at
least the one computed with epsilon1. -/
theorem intersection_mono_epsilon (search : Search) (hs : RadiusExact search)
    (gt candidate : PointCloud) (eps1 eps2 : ℚ) (h : eps1 ≤ eps2) :
    setintersection search gt candidate eps1 ≤ setintersection search gt candidate eps2 := by
  rw [setintersection_eq, setintersection_eq, intersection_length_exact search hs,
    intersection_length_exact search hs]
  unfold matchedCount
  apply List.countP_mono_left
  intro q _ hq
  simp only [decide_eq_true_eq] at hq ⊢
  obtain ⟨p, hp, hw⟩ := hq
  exact ⟨p, hp, withinRadius_mono p q eps1 eps2 h hw⟩

/-- Witness of C3: scenario A at the tolerances 1/10000 and 1. -/
theorem intersection_mono_epsilon_witness :
    EPSILON ≤ 1 ∧
    setintersection exactRadiusSearch scenarioA_reference scenarioA_candidate EPSILON ≤
      setintersection exactRadiusSearch scenarioA_reference scenarioA_candidate 1 :=
  ⟨by norm_num [EPSILON],
    intersection_mono_epsilon exactRadiusSearch exactRadiusSearch_exact scenarioA_reference
      scenarioA_candidate EPSILON 1 (by norm_num [EPSILON])⟩

/-- C8: a report line is written for a candidate if and only if its intersection count
is not zero, and it carries the two paths, the intersection count and the union; when,
under an exact radius search, no candidate point lies within epsilon of a reference
point, the intersection is 0 and no line is written for that candidate. -/
theorem report_iff_intersection_nonzero (search : Search) (infile cfile : String)
    (gt candidate : PointCloud) (eps : ℚ) :
    (reportCandidate search infile gt eps cfile candidate =
      if (intersection search gt candidate eps).length ≠ 0 then
        some ⟨infile, cfile, (intersection search gt candidate eps).length,
          setunion search gt candidate eps⟩
      else none) ∧
    ((reportCandidate search infile gt eps cfile candidate).isSome ↔
      (intersection search gt candidate eps).length ≠ 0) ∧
    (RadiusExact search →
      (∀ q ∈ candidate.points, ∀ p ∈ gt.points, ¬ withinRadius p q eps) →
      (intersection search gt candidate eps).length = 0 ∧
      reportCandidate search infile gt eps cfile candidate = none ∧
      compareCandidates search infile gt eps [(cfile, candidate)] = []) := by
  have hrep : reportCandidate search infile gt eps cfile candidate =
      if (intersection search gt candidate eps).length ≠ 0 then
        some ⟨infile, cfile, (intersection search gt candidate eps).length,
          setunion search gt candidate eps⟩
      else none := by
    unfold reportCandidate
    rw [setintersection_eq]
  refine ⟨hrep, ?_, ?_⟩
  · rw [hrep]
    split <;> simp_all
  · intro hs hfar
    have h0 : (intersection search gt candidate eps).length = 0 := by
      rw [intersection_length_exact search hs]
      unfold matchedCount
      rw [List.countP_eq_zero]
      intro q hq
      simp only [decide_eq_true_eq, not_exists, not_and]
      exact hfar q hq
    have hnone : reportCandidate search infile gt eps cfile candidate = none := by
      rw [hrep, h0]
      rfl
    refine ⟨h0, hnone, ?_⟩
    simp [compareCandidates, hnone]

/-- Witness of C8, scenario B: a reference of two points and a candidate of two far
points give intersection 0 and no report line. -/
theorem report_iff_intersection_nonzero_witness :
    (intersection exactRadiusSearch scenarioB_reference scenarioB_candidate EPSILON).length = 0 ∧
    reportCandidate exactRadiusSearch "gt.pcd" scenarioB_reference EPSILON "c.pcd"
      scenarioB_candidate = none ∧
    compareCandidates exactRadiusSearch "gt.pcd" scenarioB_reference EPSILON
      [("c.pcd", scenarioB_candidate)] = [] :=
  (report_iff_intersection_nonzero exactRadiusSearch "gt.pcd" "c.pcd" scenarioB_reference
    scenarioB_candidate EPSILON).2.2 exactRadiusSearch_exact
    (by
      intro q hq p hp
      simp only [scenarioB_candidate, scenarioB_reference, List.mem_cons, List.mem_singleton,
        List.not_mem_nil, or_false] at hq hp
      rcases hq with rfl | rfl <;> rcases hp with rfl | rfl <;>
        (unfold withinRadius sqrDist EPSILON; norm_num))

/-! ## Facts about the accumulators and the statistics map -/

theorem Sample.add_swap (a x y : Sample) :
    Sample.add (Sample.add a x) y = Sample.add (Sample.add a y) x := by
  cases a <;> cases x <;> cases y <;> simp [Sample.add, add_right_comm]

theorem accumulator_t.push_push_comm (acc : accumulator_t) (x y : Sample) :
    (acc.push x).push y = (acc.push y).push x := by
  have hmin : ∀ u v m : ℚ, (if v < (if u < m then u else m) then v else (if u < m then u else m)) =
      (if u < (if v < m then v else m) then u else (if v < m then v else m)) := by
    intro u v m
    split_ifs <;> first | rfl | linarith
  have hmax : ∀ u v m : ℚ, (if v > (if u > m then u else m) then v else (if u > m then u else m)) =
      (if u > (if v > m then v else m) then u else (if v > m then v else m)) := by
    intro u v m
    split_ifs <;> first | rfl | linarith
  unfold accumulator_t.push
  simp only [accumulator_t.mk.injEq, true_and]
  refine ⟨Sample.add_swap _ _ _, ?_, ?_, Sample.add_swap _ _ _⟩
  · cases x <;> cases y <;> simp only []
    exact (hmin _ _ _).symm
  · cases x <;> cases y <;> simp only []
    exact (hmax _ _ _).symm

theorem foldl_push_perm (l1 l2 : List Sample) (h : l1.Perm l2) (acc : accumulator_t) :
    l1.foldl accumulator_t.push acc = l2.foldl accumulator_t.push acc :=
  h.foldl_eq' (fun x _ y _ z => accumulator_t.push_push_comm z x y) acc

theorem foldl_push_count (l : List Sample) (acc : accumulator_t) :
    (l.foldl accumulator_t.push acc).count = acc.count + l.length := by
  induction l generalizing acc with
  | nil => rfl
  | cons x xs ih =>
    rw [List.foldl_cons, ih, List.length_cons]
    simp only [accumulator_t.push]
    omega

theorem StatsMap.find_pushAt_self (stats : StatsMap) (k : ScaleKey) (x : Sample) :
    StatsMap.find (StatsMap.pushAt stats k x) k =
      (StatsMap.find stats k).map (fun a => a.push x) := by
  induction stats with
  | nil => rfl
  | cons e rest ih =>
    obtain ⟨k', a⟩ := e
    by_cases h : k = k'
    · simp [StatsMap.pushAt, StatsMap.find, h]
    · simp [StatsMap.pushAt, StatsMap.find, h, ih]

theorem StatsMap.find_pushAt_ne (stats : StatsMap) (k k2 : ScaleKey) (x : Sample) (hne : k2 ≠ k) :
    StatsMap.find (StatsMap.pushAt stats k x) k2 = StatsMap.find stats k2 := by
  induction stats with
  | nil => rfl
  | cons e rest ih =>
    obtain ⟨k', a⟩ := e
    by_cases h : k = k'
    · subst h
      simp [StatsMap.pushAt, StatsMap.find, hne]
    · by_cases h2 : k2 = k'
      · simp [StatsMap.pushAt, StatsMap.find, h, h2]
      · simp [StatsMap.pushAt, StatsMap.find, h, h2, ih]

theorem StatsMap.find_insert_self (stats : StatsMap) (k : ScaleKey) (a : accumulator_t)
    (hnone : StatsMap.find stats k = none) :
    StatsMap.find (StatsMap.insert stats k a) k = some a := by
  induction stats with
  | nil => simp [StatsMap.insert, StatsMap.find]
  | cons e rest ih =>
    obtain ⟨k', a'⟩ := e
    by_cases h : k = k'
    · simp [StatsMap.find, h] at hnone
    · simp only [StatsMap.find, h, if_false] at hnone
      by_cases hlt : keyLt k k' = true
      · simp [StatsMap.insert, StatsMap.find, h, hlt]
      · simp [StatsMap.insert, StatsMap.find, h, hlt, ih hnone]

theorem StatsMap.find_insert_ne (stats : StatsMap) (k k2 : ScaleKey) (a : accumulator_t)
    (hne : k2 ≠ k) :
    StatsMap.find (StatsMap.insert stats k a) k2 = StatsMap.find stats k2 := by
  induction stats with
  | nil => simp [StatsMap.insert, StatsMap.find, hne]
  | cons e rest ih =>
    obtain ⟨k', a'⟩ := e
    by_cases h : k = k'
    · simp [StatsMap.insert, h]
    · by_cases hlt : keyLt k k' = true
      · simp [StatsMap.insert, StatsMap.find, h, hlt, hne]
      · by_cases h2 : k2 = k'
        · simp [StatsMap.insert, StatsMap.find, h, hlt, h2]
        · simp [StatsMap.insert, StatsMap.find, h, hlt, h2, ih]

theorem find_foldSample_self (stats : StatsMap) (k : ScaleKey) (x : Sample) :
    StatsMap.find (foldSample stats k x) k =
      some (((StatsMap.find stats k).getD accumulator_t.init).push x) := by
  unfold foldSample
  cases hf : StatsMap.find stats k with
  | none =>
    simp only [Option.isSome_none, Bool.false_eq_true, if_false, Option.getD_none]
    rw [StatsMap.find_pushAt_self, StatsMap.find_insert_self stats k _ hf]
    rfl
  | some a =>
    simp only [Option.isSome_some, if_true, Option.getD_some]
    rw [StatsMap.find_pushAt_self, hf]
    rfl

theorem find_foldSample_ne (stats : StatsMap) (k k2 : ScaleKey) (x : Sample) (hne : k2 ≠ k) :
    StatsMap.find (foldSample stats k x) k2 = StatsMap.find stats k2 := by
  unfold foldSample
  split
  · exact StatsMap.find_pushAt_ne stats k k2 x hne
  · rw [StatsMap.find_pushAt_ne _ k k2 x hne, StatsMap.find_insert_ne stats k k2 _ hne]

theorem find_foldSamples_cons (stats : StatsMap) (k : ScaleKey) (x : Sample) (xs : List Sample) :
    StatsMap.find (foldSamples stats k (x :: xs)) k =
      some ((x :: xs).foldl accumulator_t.push
        ((StatsMap.find stats k).getD accumulator_t.init)) := by
  induction xs generalizing stats x with
  | nil => exact find_foldSample_self stats k x
  | cons y ys ih =>
    have h := ih (foldSample stats k x) y
    rw [find_foldSample_self] at h
    exact h

theorem find_foldSamples_ne (stats : StatsMap) (k k2 : ScaleKey) (l : List Sample) (hne : k2 ≠ k) :
    StatsMap.find (foldSamples stats k l) k2 = StatsMap.find stats k2 := by
  induction l generalizing stats with
  | nil => rfl
  | cons x xs ih =>
    have h := ih (foldSample stats k x)
    rw [find_foldSample_ne stats k k2 x hne] at h
    exact h

theorem countAt_foldSamples (stats : StatsMap) (k : ScaleKey) (l : List Sample) :
    StatsMap.countAt (foldSamples stats k l) k = StatsMap.countAt stats k + l.length := by
  cases l with
  | nil => rfl
  | cons x xs =>
    unfold StatsMap.countAt
    rw [find_foldSamples_cons]
    simp only [foldl_push_count]
    cases StatsMap.find stats k <;> rfl

theorem magnitudes_length (ops : DoNOps) (cloud : PointCloud) (scale1 scale2 : ℚ) :
    (magnitudes ops cloud scale1 scale2).length = cloud.size := by
  simp [magnitudes]

/-! ## Claims about the accumulators -/

/-- C9: for every key absent from the map and every finite list of samples, folding any
permutation of the list gives the same accumulator for the key, hence the same count,
sum, min, max, mean and variance (exact arithmetic, median left out); the accumulator
is created with the first sample folded and updated by every later one, and an empty
list leaves the key absent. -/
theorem fold_order_independent (stats : StatsMap) (scalekey : ScaleKey)
    (hfresh : StatsMap.find stats scalekey = none) (l1 l2 : List Sample) (h : l1.Perm l2) :
    (l1 = [] → StatsMap.find (foldSamples stats scalekey l1) scalekey = none ∧
      StatsMap.find (foldSamples stats scalekey l2) scalekey = none) ∧
    (l1 ≠ [] → ∃ acc1 acc2 : accumulator_t,
      StatsMap.find (foldSamples stats scalekey l1) scalekey = some acc1 ∧
      StatsMap.find (foldSamples stats scalekey l2) scalekey = some acc2 ∧
      acc1 = l1.foldl accumulator_t.push accumulator_t.init ∧
      acc2 = l2.foldl accumulator_t.push accumulator_t.init ∧
      acc1.count = l1.length ∧
      acc1.count = acc2.count ∧ acc1.sum = acc2.sum ∧ acc1.min = acc2.min ∧
      acc1.max = acc2.max ∧ acc1.mean = acc2.mean ∧ acc1.variance = acc2.variance) := by
  constructor
  · intro hnil
    subst hnil
    rw [List.nil_perm] at h
    subst h
    exact ⟨hfresh, hfresh⟩
  · intro hne
    have hne2 : l2 ≠ [] := fun h2 => hne (by rw [h2] at h; exact List.perm_nil.mp h)
    obtain ⟨x, xs, rfl⟩ := List.exists_cons_of_ne_nil hne
    obtain ⟨y, ys, rfl⟩ := List.exists_cons_of_ne_nil hne2
    have heq := foldl_push_perm (x :: xs) (y :: ys) h accumulator_t.init
    refine ⟨(x :: xs).foldl accumulator_t.push accumulator_t.init,
      (y :: ys).foldl accumulator_t.push accumulator_t.init, ?_, ?_, rfl, rfl, ?_, ?_⟩
    · rw [find_foldSamples_cons, hfresh]; rfl
    · rw [find_foldSamples_cons, hfresh]; rfl
    · rw [foldl_push_count]; simp [accumulator_t.init]
    · rw [heq]
      exact ⟨rfl, rfl, rfl, rfl, rfl, rfl⟩

/-- Witness of C9: the samples 1, 2 and an undefined one, folded in two orders into an
empty map. -/
theorem fold_order_independent_witness :
    ∃ acc1 acc2 : accumulator_t,
      StatsMap.find (foldSamples [] (1, 2) [some 1, some 2, none]) (1, 2) = some acc1 ∧
      StatsMap.find (foldSamples [] (1, 2) [none, some 2, some 1]) (1, 2) = some acc2 ∧
      acc1 = [some 1, some 2, none].foldl accumulator_t.push accumulator_t.init ∧
      acc2 = [none, some 2, some 1].foldl accumulator_t.push accumulator_t.init ∧
      acc1.count = [some (1 : ℚ), some 2, none].length ∧
      acc1.count = acc2.count ∧ acc1.sum = acc2.sum ∧ acc1.min = acc2.min ∧
      acc1.max = acc2.max ∧ acc1.mean = acc2.mean ∧ acc1.variance = acc2.variance :=
  (fold_order_independent [] (1, 2) rfl [some 1, some 2, none] [none, some 2, some 1]
    (by decide)).2 (by simp)

/-! ## Facts about the scale loops -/

theorem innerLoop_record (radiusincrement scale2 : ℚ) (fuel : Nat) (scale1 : ℚ)
    (tr : List ScaleKey) :
    innerLoop recordPair radiusincrement scale2 fuel scale1 tr =
      ((innerLoop recordPair radiusincrement scale2 fuel scale1 []).1,
        tr ++ (innerLoop recordPair radiusincrement scale2 fuel scale1 []).2) := by
  induction fuel generalizing scale1 tr with
  | zero => simp [innerLoop]
  | succ fuel ih =>
    by_cases h : scale1 < scale2
    · simp only [innerLoop, h, if_true, recordPair, List.nil_append]
      rw [ih (scale1 + radiusincrement) (tr ++ [(scale1, scale2)]),
        ih (scale1 + radiusincrement) [(scale1, scale2)]]
      simp
    · simp [innerLoop, h]

theorem innerLoop_record_status (radiusincrement scale2 : ℚ) (fuel : Nat) (scale1 : ℚ)
    (tr : List ScaleKey) :
    (innerLoop recordPair radiusincrement scale2 fuel scale1 tr).1 = Status.done ∨
    (innerLoop recordPair radiusincrement scale2 fuel scale1 tr).1 = Status.timeout := by
  induction fuel generalizing scale1 tr with
  | zero => simp [innerLoop]
  | succ fuel ih =>
    by_cases h : scale1 < scale2
    · simp only [innerLoop, h, if_true, recordPair]
      exact ih _ _
    · simp [innerLoop, h]

theorem innerLoop_sim {σ : Type} (body : σ → ℚ → ℚ → Except Fatal σ)
    (radiusincrement scale2 : ℚ) (fuel : Nat) (scale1 : ℚ) (st : σ) :
    innerLoop body radiusincrement scale2 fuel scale1 st =
      runPairs body (innerLoop recordPair radiusincrement scale2 fuel scale1 []).1
        (innerLoop recordPair radiusincrement scale2 fuel scale1 []).2 st := by
  induction fuel generalizing scale1 st with
  | zero => simp [innerLoop, runPairs]
  | succ fuel ih =>
    by_cases h : scale1 < scale2
    · simp only [innerLoop, h, if_true, recordPair, List.nil_append]
      rw [innerLoop_record radiusincrement scale2 fuel (scale1 + radiusincrement)
        [(scale1, scale2)]]
      simp only [List.singleton_append, runPairs]
      cases hb : body st scale1 scale2 with
      | error e => rfl
      | ok st2 => exact ih _ _
    · simp [innerLoop, h, runPairs]

theorem runPairs_append {σ : Type} (body : σ → ℚ → ℚ → Except Fatal σ) (final : Status)
    (l1 l2 : List ScaleKey) (st : σ) :
    runPairs body final (l1 ++ l2) st =
      match runPairs body Status.done l1 st with
      | (Status.done, st2) => runPairs body final l2 st2
      | r => r := by
  induction l1 generalizing st with
  | nil => simp [runPairs]
  | cons p ps ih =>
    simp only [List.cons_append, runPairs]
    cases hb : body st p.1 p.2 with
    | error e => rfl
    | ok st2 => exact ih st2

theorem runPairs_status {σ : Type} (body : σ → ℚ → ℚ → Except Fatal σ) (final : Status)
    (l : List ScaleKey) (st : σ) :
    (runPairs body final l st).1 = final ∨ ∃ e, (runPairs body final l st).1 = Status.fatal e := by
  induction l generalizing st with
  | nil => simp [runPairs]
  | cons p ps ih =>
    simp only [runPairs]
    cases hb : body st p.1 p.2 with
    | error e => exact Or.inr ⟨e, rfl⟩
    | ok st2 => exact ih st2

theorem outerLoop_record (radius1 radius2 radiusincrement : ℚ) (fuel : Nat) (scale2 : ℚ)
    (tr : List ScaleKey) :
    outerLoop recordPair radius1 radius2 radiusincrement fuel scale2 tr =
      ((outerLoop recordPair radius1 radius2 radiusincrement fuel scale2 []).1,
        tr ++ (outerLoop recordPair radius1 radius2 radiusincrement fuel scale2 []).2) := by
  induction fuel generalizing scale2 tr with
  | zero => simp [outerLoop]
  | succ fuel ih =>
    by_cases h : scale2 < radius2
    · simp only [outerLoop, h, if_true]
      rw [innerLoop_record radiusincrement scale2 fuel radius1 tr]
      cases hi : innerLoop recordPair radiusincrement scale2 fuel radius1 [] with
      | mk stat ext =>
        cases stat with
        | done =>
          simp only []
          rw [ih (scale2 + radiusincrement) (tr ++ ext), ih (scale2 + radiusincrement) ext]
          simp
        | timeout => simp
        | fatal e => simp
    · simp [outerLoop, h]

theorem outerLoop_record_status (radius1 radius2 radiusincrement : ℚ) (fuel : Nat) (scale2 : ℚ)
    (tr : List ScaleKey) :
    (outerLoop recordPair radius1 radius2 radiusincrement fuel scale2 tr).1 = Status.done ∨
    (outerLoop recordPair radius1 radius2 radiusincrement fuel scale2 tr).1 = Status.timeout := by
  induction fuel generalizing scale2 tr with
  | zero => simp [outerLoop]
  | succ fuel ih =>
    by_cases h : scale2 < radius2
    · simp only [outerLoop, h, if_true]
      have hs := innerLoop_record_status radiusincrement scale2 fuel radius1 tr
      cases hi : innerLoop recordPair radiusincrement scale2 fuel radius1 tr with
      | mk stat ext =>
        rw [hi] at hs
        cases stat with
        | done => exact ih _ _
        | timeout => simp
        | fatal e => simp at hs
    · simp [outerLoop, h]

theorem outerLoop_sim {σ : Type} (body : σ → ℚ → ℚ → Except Fatal σ)
    (radius1 radius2 radiusincrement : ℚ) (fuel : Nat) (scale2 : ℚ) (st : σ) :
    outerLoop body radius1 radius2 radiusincrement fuel scale2 st =
      runPairs body (outerLoop recordPair radius1 radius2 radiusincrement fuel scale2 []).1
        (outerLoop recordPair radius1 radius2 radiusincrement fuel scale2 []).2 st := by
  induction fuel generalizing scale2 st with
  | zero => simp [outerLoop, runPairs]
  | succ fuel ih =>
    by_cases h : scale2 < radius2
    · simp only [outerLoop, h, if_true]
      rw [innerLoop_sim body radiusincrement scale2 fuel radius1 st]
      have hs := innerLoop_record_status radiusincrement scale2 fuel radius1 []
      cases hi : innerLoop recordPair radiusincrement scale2 fuel radius1 [] with
      | mk stat ext =>
        rw [hi] at hs
        cases stat with
        | done =>
          simp only []
          rw [outerLoop_record radius1 radius2 radiusincrement fuel (scale2 + radiusincrement) ext]
          simp only []
          rw [runPairs_append]
          cases hr : runPairs body Status.done ext st with
          | mk stat2 st2 =>
            cases stat2 with
            | done => exact ih _ _
            | timeout => rfl
            | fatal e => rfl
        | timeout =>
          simp only []
          rcases runPairs_status body Status.timeout ext st with h1 | ⟨e, h1⟩ <;>
            (cases hr : runPairs body Status.timeout ext st with
             | mk stat2 st2 =>
               rw [hr] at h1
               simp only at h1
               subst h1
               rfl)
        | fatal e => simp at hs
    · simp [outerLoop, h, runPairs]

theorem scaleLoops_sim {σ : Type} (body : σ → ℚ → ℚ → Except Fatal σ)
    (radius1 radius2 radiusincrement : ℚ) (fuel : Nat) (st : σ) :
    scaleLoops body radius1 radius2 radiusincrement fuel st =
      runPairs body (processedPairs radius1 radius2 radiusincrement fuel).1
        (processedPairs radius1 radius2 radiusincrement fuel).2 st :=
  outerLoop_sim body radius1 radius2 radiusincrement fuel _ st

theorem innerLoop_grid (radiusincrement scale2 : ℚ) (n : Nat) :
    ∀ (fuel : Nat) (scale1 : ℚ) (tr : List ScaleKey),
      (∀ k : Nat, k < n → scale1 + (k : ℚ) * radiusincrement < scale2) →
      ¬ (scale1 + (n : ℚ) * radiusincrement < scale2) → n < fuel →
      innerLoop recordPair radiusincrement scale2 fuel scale1 tr =
        (Status.done, tr ++ (List.range n).map
          (fun (k : Nat) => (scale1 + (k : ℚ) * radiusincrement, scale2))) := by
  induction n with
  | zero =>
    intro fuel scale1 tr _ hstop hfuel
    have hf : fuel ≠ 0 := by omega
    obtain ⟨f, rfl⟩ := Nat.exists_eq_succ_of_ne_zero hf
    have h : ¬ scale1 < scale2 := by simpa using hstop
    simp [innerLoop, h]
  | succ n ih =>
    intro fuel scale1 tr hlt hstop hfuel
    have hf : fuel ≠ 0 := by omega
    obtain ⟨f, rfl⟩ := Nat.exists_eq_succ_of_ne_zero hf
    have h : scale1 < scale2 := by simpa using hlt 0 (Nat.succ_pos n)
    simp only [innerLoop, h, if_true, recordPair]
    rw [ih f (scale1 + radiusincrement) (tr ++ [(scale1, scale2)])]
    · rw [List.range_succ_eq_map, List.map_cons, List.map_map, List.append_assoc]
      congr 2
      simp only [Nat.cast_zero, zero_mul, add_zero, List.singleton_append, List.cons.injEq,
        true_and]
      apply List.map_congr_left
      intro k _
      simp only [Function.comp, Nat.succ_eq_add_one, Nat.cast_add, Nat.cast_one, Prod.mk.injEq,
        and_true]
      ring
    · intro k hk
      have := hlt (k + 1) (by omega)
      push_cast at this
      linarith
    · intro hc
      apply hstop
      push_cast
      linarith
    · omega

theorem outerLoop_grid (radius1 radius2 radiusincrement : ℚ) (hpos : 0 < radiusincrement)
    (N : Nat) (hstop : ¬ (radius1 + (N : ℚ) * radiusincrement < radius2)) (d : Nat) :
    ∀ (j fuel : Nat) (tr : List ScaleKey), N = j + d →
      (∀ j2 : Nat, j ≤ j2 → j2 < N → radius1 + (j2 : ℚ) * radiusincrement < radius2) →
      N + 2 + d ≤ fuel →
      outerLoop recordPair radius1 radius2 radiusincrement fuel
          (radius1 + (j : ℚ) * radiusincrement) tr =
        (Status.done, tr ++ (List.range' j d).flatMap (gridRow radius1 radiusincrement)) := by
  induction d with
  | zero =>
    intro j fuel tr hN _ hfuel
    have hf : fuel ≠ 0 := by omega
    obtain ⟨f, rfl⟩ := Nat.exists_eq_succ_of_ne_zero hf
    have hj : N = j := by omega
    subst hj
    simp [outerLoop, hstop]
  | succ d ih =>
    intro j fuel tr hN hlt hfuel
    have hf : fuel ≠ 0 := by omega
    obtain ⟨f, rfl⟩ := Nat.exists_eq_succ_of_ne_zero hf
    have h : radius1 + (j : ℚ) * radiusincrement < radius2 := hlt j (le_refl j) (by omega)
    simp only [outerLoop, h, if_true]
    rw [innerLoop_grid radiusincrement (radius1 + (j : ℚ) * radiusincrement) j f radius1 tr]
    · simp only []
      have hnext : radius1 + (j : ℚ) * radiusincrement + radiusincrement =
          radius1 + ((j + 1 : Nat) : ℚ) * radiusincrement := by
        push_cast
        ring
      rw [hnext, ih (j + 1) f _ (by omega) (fun j2 h1 h2 => hlt j2 (by omega) h2) (by omega)]
      rw [List.range'_succ, List.flatMap_cons, List.append_assoc]
      rfl
    · intro k hk
      have hkj : (k : ℚ) < (j : ℚ) := by exact_mod_cast hk
      have := mul_lt_mul_of_pos_right hkj hpos
      linarith
    · exact lt_irrefl _
    · omega

theorem gridBound_stop (radius1 radius2 radiusincrement : ℚ) (hpos : 0 < radiusincrement) :
    ¬ (radius1 + ((gridBound radius1 radius2 radiusincrement : Nat) : ℚ) * radiusincrement
      < radius2) := by
  intro hc
  have h1 : ((gridBound radius1 radius2 radiusincrement : Nat) : ℚ) <
      (radius2 - radius1) / radiusincrement := by
    rw [lt_div_iff₀ hpos]
    linarith
  have h2 : ((Nat.ceil ((radius2 - radius1) / radiusincrement) : Nat) : ℚ) ≤
      ((gridBound radius1 radius2 radiusincrement : Nat) : ℚ) := by
    exact_mod_cast le_max_right 1 _
  have h3 := Nat.le_ceil ((radius2 - radius1) / radiusincrement)
  linarith

theorem gridBound_pos (radius1 radius2 radiusincrement : ℚ) :
    1 ≤ gridBound radius1 radius2 radiusincrement :=
  le_max_left 1 _

theorem lt_gridBound_iff (radius1 radius2 radiusincrement : ℚ) (hpos : 0 < radiusincrement)
    (j : Nat) (hj : 1 ≤ j) :
    j < gridBound radius1 radius2 radiusincrement ↔
      radius1 + (j : ℚ) * radiusincrement < radius2 := by
  unfold gridBound
  rw [lt_max_iff, Nat.lt_ceil, lt_div_iff₀ hpos]
  constructor
  · rintro (h | h)
    · omega
    · linarith
  · intro h
    exact Or.inr (by linarith)

theorem processedPairs_grid (radius1 radius2 radiusincrement : ℚ) (hpos : 0 < radiusincrement)
    (fuel : Nat) (hfuel : 2 * gridBound radius1 radius2 radiusincrement + 1 ≤ fuel) :
    processedPairs radius1 radius2 radiusincrement fuel =
      (Status.done, gridPairs radius1 radius2 radiusincrement) := by
  have hN := gridBound_pos radius1 radius2 radiusincrement
  have hstart : radius1 + radiusincrement = radius1 + ((1 : Nat) : ℚ) * radiusincrement := by
    simp
  unfold processedPairs scaleLoops
  rw [hstart, outerLoop_grid radius1 radius2 radiusincrement hpos
    (gridBound radius1 radius2 radiusincrement)
    (gridBound_stop radius1 radius2 radiusincrement hpos)
    (gridBound radius1 radius2 radiusincrement - 1) 1 fuel [] (by omega)
    (fun j2 h1 h2 => (lt_gridBound_iff radius1 radius2 radiusincrement hpos j2 h1).mp h2)
    (by omega)]
  rfl

theorem mem_gridRow (radius1 radiusincrement : ℚ) (j : Nat) (p : ScaleKey) :
    p ∈ gridRow radius1 radiusincrement j ↔
      ∃ i : Nat, i < j ∧
        p = (radius1 + (i : ℚ) * radiusincrement, radius1 + (j : ℚ) * radiusincrement) := by
  unfold gridRow
  simp only [List.mem_map, List.mem_range]
  constructor
  · rintro ⟨i, hi, rfl⟩
    exact ⟨i, hi, rfl⟩
  · rintro ⟨i, hi, rfl⟩
    exact ⟨i, hi, rfl⟩

theorem mem_gridPairs (radius1 radius2 radiusincrement : ℚ) (hpos : 0 < radiusincrement)
    (p : ScaleKey) :
    p ∈ gridPairs radius1 radius2 radiusincrement ↔
      ∃ i j : Nat, i < j ∧
        p = (radius1 + (i : ℚ) * radiusincrement, radius1 + (j : ℚ) * radiusincrement) ∧
        radius1 + (j : ℚ) * radiusincrement < radius2 := by
  have hN := gridBound_pos radius1 radius2 radiusincrement
  unfold gridPairs
  simp only [List.mem_flatMap, List.mem_range'_1, mem_gridRow]
  constructor
  · rintro ⟨j, ⟨hj1, hj2⟩, i, hi, rfl⟩
    refine ⟨i, j, hi, rfl, ?_⟩
    exact (lt_gridBound_iff radius1 radius2 radiusincrement hpos j hj1).mp (by omega)
  · rintro ⟨i, j, hi, rfl, hlt⟩
    have hj1 : 1 ≤ j := by omega
    have := (lt_gridBound_iff radius1 radius2 radiusincrement hpos j hj1).mpr hlt
    exact ⟨j, ⟨hj1, by omega⟩, i, hi, rfl⟩

theorem grid_scale_injective (radius1 radiusincrement : ℚ) (hpos : 0 < radiusincrement)
    (a b : Nat) (h : radius1 + (a : ℚ) * radiusincrement = radius1 + (b : ℚ) * radiusincrement) :
    a = b := by
  have h1 : (a : ℚ) * radiusincrement = (b : ℚ) * radiusincrement := by linarith
  have h2 : (a : ℚ) = (b : ℚ) := mul_right_cancel₀ (ne_of_gt hpos) h1
  exact_mod_cast h2

theorem nodup_gridPairs (radius1 radius2 radiusincrement : ℚ) (hpos : 0 < radiusincrement) :
    (gridPairs radius1 radius2 radiusincrement).Nodup := by
  unfold gridPairs
  rw [List.nodup_flatMap]
  constructor
  · intro j _
    unfold gridRow
    apply List.Nodup.map_on _ (List.nodup_range j)
    intro a _ b _ hab
    simp only [Prod.mk.injEq, and_true] at hab
    exact grid_scale_injective radius1 radiusincrement hpos a b hab
  · apply List.Pairwise.imp _ (List.pairwise_lt_range' 1 _)
    intro a b hab
    simp only [Function.onFun]
    rw [List.disjoint_left]
    intro p hpa hpb
    rw [mem_gridRow] at hpa hpb
    obtain ⟨i1, _, rfl⟩ := hpa
    obtain ⟨i2, _, h2⟩ := hpb
    simp only [Prod.mk.injEq] at h2
    have := grid_scale_injective radius1 radiusincrement hpos a b h2.2
    omega

theorem innerLoop_record_lt (radiusincrement scale2 : ℚ) (fuel : Nat) :
    ∀ (scale1 : ℚ) (tr : List ScaleKey), (∀ p ∈ tr, p.1 < p.2) →
      ∀ p ∈ (innerLoop recordPair radiusincrement scale2 fuel scale1 tr).2, p.1 < p.2 := by
  induction fuel with
  | zero => intro scale1 tr htr; simpa [innerLoop] using htr
  | succ fuel ih =>
    intro scale1 tr htr
    by_cases h : scale1 < scale2
    · simp only [innerLoop, h, if_true, recordPair]
      apply ih
      intro p hp
      rcases List.mem_append.mp hp with hp | hp
      · exact htr p hp
      · rw [List.mem_singleton] at hp
        subst hp
        exact h
    · simpa [innerLoop, h] using htr

theorem outerLoop_record_lt (radius1 radius2 radiusincrement : ℚ) (fuel : Nat) :
    ∀ (scale2 : ℚ) (tr : List ScaleKey), (∀ p ∈ tr, p.1 < p.2) →
      ∀ p ∈ (outerLoop recordPair radius1 radius2 radiusincrement fuel scale2 tr).2,
        p.1 < p.2 := by
  induction fuel with
  | zero => intro scale2 tr htr; simpa [outerLoop] using htr
  | succ fuel ih =>
    intro scale2 tr htr
    by_cases h : scale2 < radius2
    · simp only [outerLoop, h, if_true]
      have hin := innerLoop_record_lt radiusincrement scale2 fuel radius1 tr htr
      cases hi : innerLoop recordPair radiusincrement scale2 fuel radius1 tr with
      | mk stat ext =>
        rw [hi] at hin
        cases stat with
        | done => exact ih _ ext hin
        | timeout => exact hin
        | fatal e => exact hin
    · simpa [outerLoop, h] using htr

theorem processedPairs_lt (radius1 radius2 radiusincrement : ℚ) (fuel : Nat) :
    ∀ p ∈ (processedPairs radius1 radius2 radiusincrement fuel).2, p.1 < p.2 :=
  outerLoop_record_lt radius1 radius2 radiusincrement fuel _ [] (fun _ hp => by cases hp)

theorem StatsMap.mem_pushAt (stats : StatsMap) (k : ScaleKey) (x : Sample)
    (e : ScaleKey × accumulator_t) (he : e ∈ StatsMap.pushAt stats k x) :
    ∃ e2 ∈ stats, e2.1 = e.1 := by
  induction stats with
  | nil => cases he
  | cons e1 rest ih =>
    obtain ⟨k1, a⟩ := e1
    by_cases h : k = k1
    · simp only [StatsMap.pushAt, h, if_true, List.mem_cons] at he
      rcases he with rfl | he
      · exact ⟨(k1, a), List.mem_cons_self _ _, rfl⟩
      · exact ⟨e, List.mem_cons_of_mem _ he, rfl⟩
    · simp only [StatsMap.pushAt, h, if_false, List.mem_cons] at he
      rcases he with rfl | he
      · exact ⟨(k1, a), List.mem_cons_self _ _, rfl⟩
      · obtain ⟨e2, he2, h2⟩ := ih he
        exact ⟨e2, List.mem_cons_of_mem _ he2, h2⟩

theorem StatsMap.mem_insert (stats : StatsMap) (k : ScaleKey) (a : accumulator_t)
    (e : ScaleKey × accumulator_t) (he : e ∈ StatsMap.insert stats k a) :
    e.1 = k ∨ e ∈ stats := by
  induction stats with
  | nil =>
    simp only [StatsMap.insert, List.mem_singleton] at he
    exact Or.inl (by rw [he])
  | cons e1 rest ih =>
    obtain ⟨k1, a1⟩ := e1
    by_cases h : k = k1
    · simp only [StatsMap.insert, h, if_true] at he
      exact Or.inr he
    · by_cases hlt : keyLt k k1 = true
      · simp only [StatsMap.insert, h, if_false, hlt, if_true, List.mem_cons] at he
        rcases he with rfl | he
        · exact Or.inl rfl
        · exact Or.inr (List.mem_cons.mpr he)
      · simp only [StatsMap.insert, h, if_false, hlt, Bool.false_eq_true, List.mem_cons] at he
        rcases he with he | he
        · exact Or.inr (by rw [he]; exact List.mem_cons_self _ _)
        · rcases ih he with h1 | h1
          · exact Or.inl h1
          · exact Or.inr (List.mem_cons_of_mem _ h1)

theorem foldSample_keys (stats : StatsMap) (k : ScaleKey) (x : Sample)
    (e : ScaleKey × accumulator_t) (he : e ∈ foldSample stats k x) :
    e.1 = k ∨ ∃ e2 ∈ stats, e2.1 = e.1 := by
  unfold foldSample at he
  split at he
  · exact Or.inr (StatsMap.mem_pushAt stats k x e he)
  · obtain ⟨e2, he2, h2⟩ := StatsMap.mem_pushAt _ k x e he
    rcases StatsMap.mem_insert stats k _ e2 he2 with h3 | h3
    · exact Or.inl (by rw [← h2, h3])
    · exact Or.inr ⟨e2, h3, h2⟩

theorem foldSamples_keys (k : ScaleKey) (l : List Sample) :
    ∀ (stats : StatsMap) (e : ScaleKey × accumulator_t), e ∈ foldSamples stats k l →
      e.1 = k ∨ ∃ e2 ∈ stats, e2.1 = e.1 := by
  induction l with
  | nil => intro stats e he; exact Or.inr ⟨e, he, rfl⟩
  | cons x xs ih =>
    intro stats e he
    rcases ih (foldSample stats k x) e he with h | ⟨e2, he2, h2⟩
    · exact Or.inl h
    · rcases foldSample_keys stats k x e2 he2 with h3 | ⟨e3, he3, h3⟩
      · exact Or.inl (by rw [← h2, h3])
      · exact Or.inr ⟨e3, he3, by rw [h3, h2]⟩

theorem runPairs_pairBody_ordered (ops : DoNOps) (cloud : PointCloud) (final : Status)
    (hfinal : final ≠ Status.fatal Fatal.scaleOrder) (l : List ScaleKey) :
    ∀ (stats : StatsMap), (∀ p ∈ l, p.1 < p.2) → (∀ e ∈ stats, e.1.1 < e.1.2) →
      (runPairs (pairBody ops cloud) final l stats).1 ≠ Status.fatal Fatal.scaleOrder ∧
      ∀ e ∈ (runPairs (pairBody ops cloud) final l stats).2, e.1.1 < e.1.2 := by
  induction l with
  | nil => intro stats _ hst; exact ⟨hfinal, hst⟩
  | cons p ps ih =>
    intro stats hl hst
    have hp : p.1 < p.2 := hl p (List.mem_cons_self _ _)
    simp only [runPairs, pairBody, ge_iff_le, not_le.mpr hp, if_false]
    by_cases hinit : ops.initCompute cloud p.1 p.2 = false
    · simp only [hinit, if_true]
      exact ⟨by simp, hst⟩
    · simp only [hinit, if_false]
      apply ih _ (fun q hq => hl q (List.mem_cons_of_mem _ hq))
      intro e he
      rcases foldSamples_keys _ _ _ e he with h | ⟨e2, he2, h2⟩
      · rw [h]; exact hp
      · rw [← h2]; exact hst e2 he2

theorem modelLoop_ordered (ops : DoNOps) (radius1 radius2 radiusincrement : ℚ) (fuel : Nat)
    (models : List PointCloud) :
    ∀ (stats : StatsMap), (∀ e ∈ stats, e.1.1 < e.1.2) →
      (modelLoop ops radius1 radius2 radiusincrement fuel models stats).1 ≠
        Status.fatal Fatal.scaleOrder ∧
      ∀ e ∈ (modelLoop ops radius1 radius2 radiusincrement fuel models stats).2,
        e.1.1 < e.1.2 := by
  induction models with
  | nil => intro stats hst; exact ⟨by simp [modelLoop], hst⟩
  | cons cloud rest ih =>
    intro stats hst
    have hstat : (processedPairs radius1 radius2 radiusincrement fuel).1 ≠
        Status.fatal Fatal.scaleOrder := by
      rcases outerLoop_record_status radius1 radius2 radiusincrement fuel
        (radius1 + radiusincrement) [] with h | h <;>
      · unfold processedPairs scaleLoops
        rw [h]
        simp
    have h := runPairs_pairBody_ordered ops cloud _ hstat _ stats
      (processedPairs_lt radius1 radius2 radiusincrement fuel) hst
    rw [← scaleLoops_sim] at h
    simp only [modelLoop]
    cases hr : scaleLoops (pairBody ops cloud) radius1 radius2 radiusincrement fuel stats with
    | mk stat st2 =>
      rw [hr] at h
      cases stat with
      | done => exact ih st2 h.2
      | timeout => exact h
      | fatal e => exact h

/-- C5: for every scaleMin, scaleMax and scaleStep, zero and negative steps included,
and every amount of fuel, every scale pair the loop body runs for satisfies s1 < s2, the
exit "Large scale must be > small scale" is never taken, neither in the loops of one
cloud nor in the whole run, and every key of the statistics map has
small_scale < large_scale. -/
theorem scale_pairs_strictly_ordered (ops : DoNOps) (radius1 radius2 radiusincrement : ℚ)
    (models : List PointCloud) (fuel : Nat) :
    (∀ p ∈ (processedPairs radius1 radius2 radiusincrement fuel).2, p.1 < p.2) ∧
    (∀ (cloud : PointCloud) (stats : StatsMap),
      scaleLoops (pairBody ops cloud) radius1 radius2 radiusincrement fuel stats =
        runPairs (pairBody ops cloud) (processedPairs radius1 radius2 radiusincrement fuel).1
          (processedPairs radius1 radius2 radiusincrement fuel).2 stats) ∧
    (modelLoop ops radius1 radius2 radiusincrement fuel models []).1 ≠
      Status.fatal Fatal.scaleOrder ∧
    (∀ e ∈ (modelLoop ops radius1 radius2 radiusincrement fuel models []).2, e.1.1 < e.1.2) := by
  have h := modelLoop_ordered ops radius1 radius2 radiusincrement fuel models []
    (fun _ he => by cases he)
  exact ⟨processedPairs_lt radius1 radius2 radiusincrement fuel,
    fun cloud stats => scaleLoops_sim _ radius1 radius2 radiusincrement fuel stats, h.1, h.2⟩

theorem pairBody_ok (ops : DoNOps) (cloud : PointCloud) (stats : StatsMap) (scale1 scale2 : ℚ)
    (hlt : scale1 < scale2) (hinit : ops.initCompute cloud scale1 scale2 = true) :
    pairBody ops cloud stats scale1 scale2 = Except.ok (foldCloud ops cloud scale1 scale2 stats) := by
  unfold pairBody
  rw [if_neg (not_le.mpr hlt), if_neg (by simp [hinit])]

theorem countAt_foldCloud (ops : DoNOps) (cloud : PointCloud) (stats : StatsMap)
    (scale1 scale2 : ℚ) (k : ScaleKey) :
    StatsMap.countAt (foldCloud ops cloud scale1 scale2 stats) k =
      StatsMap.countAt stats k + (if k = (scale1, scale2) then cloud.size else 0) := by
  unfold foldCloud
  by_cases hk : k = (scale1, scale2)
  · subst hk
    rw [countAt_foldSamples, magnitudes_length, if_pos rfl]
  · rw [if_neg hk, Nat.add_zero]
    unfold StatsMap.countAt
    rw [find_foldSamples_ne stats _ k _ hk]

theorem runPairs_pairBody_counts (ops : DoNOps) (cloud : PointCloud)
    (hinit : ∀ s1 s2 : ℚ, ops.initCompute cloud s1 s2 = true) (l : List ScaleKey) :
    ∀ (stats : StatsMap), (∀ p ∈ l, p.1 < p.2) → l.Nodup →
      ∃ stats2, runPairs (pairBody ops cloud) Status.done l stats = (Status.done, stats2) ∧
        ∀ k : ScaleKey, StatsMap.countAt stats2 k =
          StatsMap.countAt stats k + (if k ∈ l then cloud.size else 0) := by
  induction l with
  | nil =>
    intro stats _ _
    exact ⟨stats, rfl, fun k => by simp⟩
  | cons p ps ih =>
    intro stats hl hnd
    have hp : p.1 < p.2 := hl p (List.mem_cons_self _ _)
    rw [List.nodup_cons] at hnd
    obtain ⟨stats2, hrun, hcount⟩ := ih (foldCloud ops cloud p.1 p.2 stats)
      (fun q hq => hl q (List.mem_cons_of_mem _ hq)) hnd.2
    refine ⟨stats2, ?_, ?_⟩
    · simp only [runPairs]
      rw [pairBody_ok ops cloud stats p.1 p.2 hp (hinit p.1 p.2)]
      exact hrun
    · intro k
      rw [hcount k, countAt_foldCloud]
      by_cases hk : k = p
      · subst hk
        have hnot : k ∉ ps := hnd.1
        simp [hnot]
      · have hk2 : k ≠ (p.1, p.2) := hk
        by_cases hps : k ∈ ps
        · simp [hk, hk2, hps]
        · simp [hk, hk2, hps]

theorem modelLoop_counts (ops : DoNOps) (radius1 radius2 radiusincrement : ℚ) (fuel : Nat)
    (hinit : ∀ (cloud : PointCloud) (s1 s2 : ℚ), ops.initCompute cloud s1 s2 = true)
    (pairs : List ScaleKey)
    (hpairs : processedPairs radius1 radius2 radiusincrement fuel = (Status.done, pairs))
    (hnd : pairs.Nodup) (models : List PointCloud) :
    ∀ (stats : StatsMap),
      ∃ stats2, modelLoop ops radius1 radius2 radiusincrement fuel models stats =
          (Status.done, stats2) ∧
        ∀ k : ScaleKey, StatsMap.countAt stats2 k =
          StatsMap.countAt stats k +
            (if k ∈ pairs then (models.map PointCloud.size).sum else 0) := by
  have hlt : ∀ p ∈ pairs, p.1 < p.2 := by
    have h := processedPairs_lt radius1 radius2 radiusincrement fuel
    rw [hpairs] at h
    exact h
  induction models with
  | nil =>
    intro stats
    exact ⟨stats, rfl, fun k => by simp⟩
  | cons cloud rest ih =>
    intro stats
    obtain ⟨st1, hrun, hc1⟩ := runPairs_pairBody_counts ops cloud (hinit cloud) pairs stats hlt hnd
    obtain ⟨st2, hrest, hc2⟩ := ih st1
    refine ⟨st2, ?_, ?_⟩
    · simp only [modelLoop]
      rw [scaleLoops_sim, hpairs, hrun]
      exact hrest
    · intro k
      rw [hc2 k, hc1 k]
      by_cases hk : k ∈ pairs
      · simp only [hk, if_true, List.map_cons, List.sum_cons]
        omega
      · simp [hk]

/-- C7 (amended): every point of a cloud is folded into the accumulator of the key of a
processed scale pair, whether its DoN magnitude is defined or not.  When the body of a
pair completes, the count of the key `(s1, s2)` has grown by the number of points of
the cloud and no other key has changed; and when the step is positive and every DoN
operator initialises, the run ends with, for every processed pair, a count equal to the
total number of points summed over all models. -/
theorem every_point_is_folded (ops : DoNOps) :
    (∀ (cloud : PointCloud) (stats stats2 : StatsMap) (scale1 scale2 : ℚ),
      pairBody ops cloud stats scale1 scale2 = Except.ok stats2 →
        stats2 = foldSamples stats (scale1, scale2) (magnitudes ops cloud scale1 scale2) ∧
        (magnitudes ops cloud scale1 scale2).length = cloud.size ∧
        StatsMap.countAt stats2 (scale1, scale2) =
          StatsMap.countAt stats (scale1, scale2) + cloud.size ∧
        ∀ k : ScaleKey, k ≠ (scale1, scale2) →
          StatsMap.find stats2 k = StatsMap.find stats k) ∧
    (∀ (radius1 radius2 radiusincrement : ℚ) (models : List PointCloud),
      0 < radiusincrement →
      (∀ (cloud : PointCloud) (s1 s2 : ℚ), ops.initCompute cloud s1 s2 = true) →
      ∃ fuel0 : Nat, ∀ fuel, fuel0 ≤ fuel →
        ∃ stats, modelLoop ops radius1 radius2 radiusincrement fuel models [] =
            (Status.done, stats) ∧
          ∀ i j : Nat, i < j → radius1 + (j : ℚ) * radiusincrement < radius2 →
            StatsMap.countAt stats
                (radius1 + (i : ℚ) * radiusincrement, radius1 + (j : ℚ) * radiusincrement) =
              (models.map PointCloud.size).sum) := by
  constructor
  · intro cloud stats stats2 scale1 scale2 h
    unfold pairBody at h
    split at h
    · cases h
    · split at h
      · cases h
      · have h2 : stats2 =
            foldSamples stats (scale1, scale2) (magnitudes ops cloud scale1 scale2) := by
          cases h
          rfl
        subst h2
        refine ⟨rfl, magnitudes_length ops cloud scale1 scale2, ?_, ?_⟩
        · rw [countAt_foldSamples, magnitudes_length]
        · intro k hk
          exact find_foldSamples_ne stats _ k _ hk
  · intro radius1 radius2 radiusincrement models hpos hinit
    refine ⟨2 * gridBound radius1 radius2 radiusincrement + 1, ?_⟩
    intro fuel hfuel
    obtain ⟨stats, hrun, hcount⟩ := modelLoop_counts ops radius1 radius2 radiusincrement fuel
      hinit (gridPairs radius1 radius2 radiusincrement)
      (processedPairs_grid radius1 radius2 radiusincrement hpos fuel hfuel)
      (nodup_gridPairs radius1 radius2 radiusincrement hpos) models []
    refine ⟨stats, hrun, ?_⟩
    intro i j hij hlt
    have hmem : (radius1 + (i : ℚ) * radiusincrement, radius1 + (j : ℚ) * radiusincrement) ∈
        gridPairs radius1 radius2 radiusincrement :=
      (mem_gridPairs radius1 radius2 radiusincrement hpos _).mpr ⟨i, j, hij, rfl, hlt⟩
    rw [hcount, if_pos hmem]
    simp [StatsMap.countAt, StatsMap.find]

/-- Witness of C7 (amended): a cloud of three points, one of them without a defined
magnitude, at the pair (1, 2) from an empty map gets the count 3; a run over that cloud
and a cloud of one point, scales from 1 below 4 in steps of 1, ends with the count 4 for
the pair (1, 3). -/
theorem every_point_is_folded_witness :
    definedCount sampleOps lineCloud 1 2 = 2 ∧
    StatsMap.countAt (foldCloud sampleOps lineCloud 1 2 []) (1, 2) = 0 + 3 ∧
    ∃ fuel0 : Nat, ∀ fuel, fuel0 ≤ fuel →
      ∃ stats, modelLoop sampleOps 1 4 1 fuel [lineCloud, singleCloud] [] =
          (Status.done, stats) ∧
        ∀ i j : Nat, i < j → (1 : ℚ) + (j : ℚ) * 1 < 4 →
          StatsMap.countAt stats (1 + (i : ℚ) * 1, 1 + (j : ℚ) * 1) =
            ([lineCloud, singleCloud].map PointCloud.size).sum :=
  ⟨by decide,
    ((every_point_is_folded sampleOps).1 lineCloud [] (foldCloud sampleOps lineCloud 1 2 [])
      1 2 (pairBody_ok sampleOps lineCloud [] 1 2 (by norm_num) rfl)).2.2.1,
    (every_point_is_folded sampleOps).2 1 4 1 [lineCloud, singleCloud] (by norm_num)
      (fun _ _ _ => rfl)⟩

/-- C7 (counterexample): a cloud of one point whose magnitude is undefined at the pair
(1, 2): no point has a defined magnitude, yet the body folds one sample for the key,
and the run over the scales 1 to 3 in steps of 1 reports the count 1 for the key. -/
theorem undefined_magnitude_is_counted :
    definedCount undefinedOps singleCloud 1 2 = 0 ∧
    pairBody undefinedOps singleCloud [] 1 2 =
      Except.ok [((1, 2),
        { count := 1, sum := none, min := DBL_MAX, max := -DBL_MAX, sumsq := none })] ∧
    StatsMap.countAt [((1, 2),
        { count := 1, sum := none, min := DBL_MAX, max := -DBL_MAX, sumsq := none })]
      (1, 2) = 1 ∧
    StatsMap.countAt [((1, 2),
        { count := 1, sum := none, min := DBL_MAX, max := -DBL_MAX, sumsq := none })]
      (1, 2) ≠ definedCount undefinedOps singleCloud 1 2 ∧
    example_pcl_don_pyramid undefinedOps 1 3 1 [singleCloud] 3 =
      some { exitStatus := 0, rows :=
        [ { r_s := 1, r_l := 2, min := DBL_MAX, max := -DBL_MAX, count := 1
            sum := none, mean := none, variance := none },
          { r_s := 2, r_l := 1, min := 0, max := 0, count := 0
            sum := some 0, mean := some 0, variance := some 0 } ] } := by
  have hbody : pairBody undefinedOps singleCloud [] 1 2 =
      Except.ok [((1, 2),
        { count := 1, sum := none, min := DBL_MAX, max := -DBL_MAX, sumsq := none })] := by
    unfold pairBody
    rw [if_neg (by norm_num), if_neg (by simp [undefinedOps])]
    rfl
  refine ⟨by decide, hbody, rfl, by decide, ?_⟩
  unfold example_pcl_don_pyramid modelLoop scaleLoops
  have h12 : (1 : ℚ) + 1 = 2 := by norm_num
  have h21 : (2 : ℚ) + 1 = 3 := by norm_num
  have houter : outerLoop (pairBody undefinedOps singleCloud) 1 3 1 3 (1 + 1) [] =
      (Status.done, [((1, 2),
        { count := 1, sum := none, min := DBL_MAX, max := -DBL_MAX, sumsq := none })]) := by
    rw [h12]
    simp only [outerLoop, innerLoop, hbody, h12, h21]
    norm_num
  rw [houter]
  simp only [modelLoop, report, List.flatMap_cons, List.flatMap_nil, List.append_nil]
  simp [accumulator_t.mean, accumulator_t.variance, Sample.divCount, Sample.sub, Sample.sq]

end DoNPCL
